import Mathlib

/-!
Verification development for a URDF (robot-description) viewer:
a document parser, a kinematic-tree assembler, an asset-path resolver
and a mesh cache.  The definitions below are shallow embeddings of the
TypeScript sources (urdfParser.ts, urdfLoader.ts, BabylonURDFLoader.ts);
the theorems settle the specification claims about them.
-/

namespace URDF

/-! ## Orientation math

The source computes joint and visual orientations with
rpyToQuaternion (urdfLoader.ts), which delegates to the external
rendering engine's RotationYawPitchRoll / FromEulerAngles.  We embed
rotations semantically as 3x3 real rotation matrices; the quaternion
representation used by the engine encodes exactly the matrix product
modelled here (yaw about Y, then pitch about X, then roll about Z),
per the engine's documented Euler convention. -/

noncomputable section Orient

/-- Rotation by angle t about the X axis (standard rotation matrix). -/
def Rx (t : ℝ) : Matrix (Fin 3) (Fin 3) ℝ :=
  Matrix.of ![![1, 0, 0], ![0, Real.cos t, -Real.sin t], ![0, Real.sin t, Real.cos t]]

/-- Rotation by angle t about the Y axis (standard rotation matrix). -/
def Ry (t : ℝ) : Matrix (Fin 3) (Fin 3) ℝ :=
  Matrix.of ![![Real.cos t, 0, Real.sin t], ![0, 1, 0], ![-Real.sin t, 0, Real.cos t]]

/-- Rotation by angle t about the Z axis (standard rotation matrix). -/
def Rz (t : ℝ) : Matrix (Fin 3) (Fin 3) ℝ :=
  Matrix.of ![![Real.cos t, -Real.sin t, 0], ![Real.sin t, Real.cos t, 0], ![0, 0, 1]]

/-- Semantics of the external engine's Matrix.RotationYawPitchRoll
(and Quaternion.RotationYawPitchRoll): yaw is applied about the Y
axis, pitch about the X axis, roll about the Z axis, composed as
Ry(yaw) * Rx(pitch) * Rz(roll). -/
def babylonRotationYawPitchRoll (yaw pitch roll : ℝ) : Matrix (Fin 3) (Fin 3) ℝ :=
  Ry yaw * Rx pitch * Rz roll

/-- Semantics of the external engine's Quaternion.FromEulerAngles(x, y, z),
which is RotationYawPitchRoll with yaw := y, pitch := x, roll := z. -/
def babylonFromEulerAngles (x y z : ℝ) : Matrix (Fin 3) (Fin 3) ℝ :=
  babylonRotationYawPitchRoll y x z

/-- rpyToQuaternion from urdfLoader.ts: builds the orientation with
Matrix.RotationYawPitchRoll(yaw, pitch, roll). -/
def rpyToQuaternion (roll pitch yaw : ℝ) : Matrix (Fin 3) (Fin 3) ℝ :=
  babylonRotationYawPitchRoll yaw pitch roll

/-- rpyToQuaternion from the earlier loader iteration (and the joint /
visual orientation in BabylonURDFLoader.ts): Quaternion.FromEulerAngles
applied to (roll, pitch, yaw). -/
def rpyToQuaternionEuler (roll pitch yaw : ℝ) : Matrix (Fin 3) (Fin 3) ℝ :=
  babylonFromEulerAngles roll pitch yaw

/-- The fixed-axis composition required by the specification:
R = Rz(yaw) * Ry(pitch) * Rx(roll). -/
def composeRpySpec (roll pitch yaw : ℝ) : Matrix (Fin 3) (Fin 3) ℝ :=
  Rz yaw * Ry pitch * Rx roll

end Orient

lemma Rx_zero : Rx 0 = 1 := by
  ext i j
  fin_cases i <;> fin_cases j <;>
    simp [Rx, Matrix.one_apply, Matrix.cons_val_zero, Matrix.cons_val_one,
      Matrix.cons_val_two, Matrix.head_cons, Matrix.vecHead, Matrix.vecTail,
      Function.comp]

lemma Ry_zero : Ry 0 = 1 := by
  ext i j
  fin_cases i <;> fin_cases j <;>
    simp [Ry, Matrix.one_apply, Matrix.cons_val_zero, Matrix.cons_val_one,
      Matrix.cons_val_two, Matrix.head_cons, Matrix.vecHead, Matrix.vecTail,
      Function.comp]

lemma Rz_zero : Rz 0 = 1 := by
  ext i j
  fin_cases i <;> fin_cases j <;>
    simp [Rz, Matrix.one_apply, Matrix.cons_val_zero, Matrix.cons_val_one,
      Matrix.cons_val_two, Matrix.head_cons, Matrix.vecHead, Matrix.vecTail,
      Function.comp]

lemma Rz_ne_Rx_at_half_pi : Rz (Real.pi / 2) ≠ Rx (Real.pi / 2) := by
  intro h
  have h00 := congrFun (congrFun h 0) 0
  simp [Rz, Rx, Real.cos_pi_div_two, Matrix.cons_val_zero] at h00

lemma RxRz_ne_RzRx_at_half_pi :
    Rx (Real.pi / 2) * Rz (Real.pi / 2) ≠ Rz (Real.pi / 2) * Rx (Real.pi / 2) := by
  intro h
  have h01 := congrFun (congrFun h 0) 1
  rw [Matrix.mul_apply, Matrix.mul_apply, Fin.sum_univ_three, Fin.sum_univ_three] at h01
  simp [Rx, Rz, Real.cos_pi_div_two, Real.sin_pi_div_two, Matrix.cons_val_zero,
    Matrix.cons_val_one, Matrix.cons_val_two, Matrix.head_cons, Matrix.vecHead,
    Matrix.vecTail, Function.comp] at h01

/-- C1: the claim states that the orientation computed by the
RPY-composition function equals the fixed-axis product
R = Rz(yaw) * Ry(pitch) * Rx(roll) for every input triple.  The code
does not satisfy this: rpyToQuaternion feeds the angles to the
engine's yaw-about-Y / pitch-about-X / roll-about-Z convention, so at
(roll, pitch, yaw) = (pi/2, 0, 0) it rotates about Z where the
specification requires a rotation about X, and the FromEulerAngles
variant diverges at (pi/2, 0, pi/2).  This theorem evaluates both
implementations at those failing inputs. -/
theorem c1_rpyToQuaternion_deviates_from_spec :
    rpyToQuaternion (Real.pi / 2) 0 0 ≠ composeRpySpec (Real.pi / 2) 0 0 ∧
    rpyToQuaternionEuler (Real.pi / 2) 0 (Real.pi / 2) ≠
      composeRpySpec (Real.pi / 2) 0 (Real.pi / 2) := by
  constructor
  · intro h
    have e1 : rpyToQuaternion (Real.pi / 2) 0 0 = Rz (Real.pi / 2) := by
      simp [rpyToQuaternion, babylonRotationYawPitchRoll, Ry_zero, Rx_zero]
    have e2 : composeRpySpec (Real.pi / 2) 0 0 = Rx (Real.pi / 2) := by
      simp [composeRpySpec, Rz_zero, Ry_zero]
    rw [e1, e2] at h
    exact Rz_ne_Rx_at_half_pi h
  · intro h
    have e1 : rpyToQuaternionEuler (Real.pi / 2) 0 (Real.pi / 2) =
        Rx (Real.pi / 2) * Rz (Real.pi / 2) := by
      simp [rpyToQuaternionEuler, babylonFromEulerAngles, babylonRotationYawPitchRoll,
        Ry_zero]
    have e2 : composeRpySpec (Real.pi / 2) 0 (Real.pi / 2) =
        Rz (Real.pi / 2) * Rx (Real.pi / 2) := by
      simp [composeRpySpec, Ry_zero]
    rw [e1, e2] at h
    exact RxRz_ne_RzRx_at_half_pi h

/-! ## XML document model

The parser operates on the DOM produced by the external DOMParser.
We embed that DOM as a tree of elements (tag, attributes, children);
text nodes are irrelevant to the parser and omitted.  Per the browser
contract, DOMParser never throws: malformed markup yields a document
containing a parsererror element, which is what parseURDF checks.
A mutual pair of inductives is used instead of a nested List so that
all recursions stay structural (and hence kernel-evaluable). -/

mutual

inductive XmlNode where
  | elem (tag : String) (attrs : List (String × String)) (children : XmlForest)

inductive XmlForest where
  | nil
  | cons (head : XmlNode) (tail : XmlForest)

end

def XmlNode.tag : XmlNode → String
  | .elem t _ _ => t

def XmlNode.attrs : XmlNode → List (String × String)
  | .elem _ a _ => a

def XmlNode.children : XmlNode → XmlForest
  | .elem _ _ c => c

mutual

/-- All elements of the subtree rooted at a node, each paired with the
tag of its parent element, in document (preorder) order; pt is the
parent tag attributed to the subtree root. -/
def descPairsN (pt : String) : XmlNode → List (String × XmlNode)
  | .elem t a cs => (pt, .elem t a cs) :: descPairsF t cs

/-- descPairsN mapped over a forest of siblings. -/
def descPairsF (pt : String) : XmlForest → List (String × XmlNode)
  | .nil => []
  | .cons c cs => descPairsN pt c ++ descPairsF pt cs

end

/-- All elements of the document in document order, with parent tags;
the root element gets the sentinel parent tag "". -/
def docElems (doc : XmlNode) : List (String × XmlNode) := descPairsN "" doc

/-- querySelectorAll with a child selector "ptag > ctag" on the whole
document: elements tagged ctag whose direct parent is tagged ptag. -/
def qselAllChildOfDoc (doc : XmlNode) (ptag ctag : String) : List XmlNode :=
  ((docElems doc).filter fun pr => pr.1 == ptag && pr.2.tag == ctag).map (·.2)

/-- Descendants of an element (querySelectorAll on an element matches
descendants only, never the element itself). -/
def elemDesc (el : XmlNode) : List (String × XmlNode) := descPairsF el.tag el.children

/-- querySelectorAll with a plain tag selector on an element. -/
def qAllDesc (el : XmlNode) (tag : String) : List XmlNode :=
  ((elemDesc el).filter fun pr => pr.2.tag == tag).map (·.2)

/-- querySelector with a plain tag selector on an element: first match
in document order. -/
def qselDesc (el : XmlNode) (tag : String) : Option XmlNode := (qAllDesc el tag).head?

/-- querySelector with a child selector "ptag > ctag" on an element. -/
def qselChildOf (el : XmlNode) (ptag ctag : String) : Option XmlNode :=
  ((((elemDesc el).filter fun pr => pr.1 == ptag && pr.2.tag == ctag).map (·.2))).head?

/-- getAttribute: the attribute's value, or null (none) when absent. -/
def getAttribute (el : XmlNode) (a : String) : Option String := el.attrs.lookup a

/-- The JS idiom x || d for string attributes: null and the empty
string are both falsy, so both fall back to the default. -/
def jsOr (o : Option String) (d : String) : String :=
  match o with
  | some s => if s = "" then d else s
  | none => d

/-! ## JS number and string primitives

JS strings are embedded as List Char.  parseFloat and Number are the
external runtime's numeric conversions, modelled over the rationals on
the fragment the documents exercise: an optional sign followed by a
decimal literal (no exponents, hex or Infinity forms, no surrounding
whitespace).  none models NaN. -/

/-- Leading decimal digits of a character list, as digit values, with
the remainder of the list. -/
def takeDigits : List Char → List Nat × List Char
  | [] => ([], [])
  | c :: t =>
    if c.isDigit then
      let (ds, r) := takeDigits t
      ((c.toNat - 48) :: ds, r)
    else ([], c :: t)

/-- The natural number denoted by a list of digit values. -/
def digitsToNat (ds : List Nat) : Nat := ds.foldl (fun a d => 10 * a + d) 0

/-- Longest unsigned decimal-literal value at the head of the list
(integer digits, optional point and fraction digits), with the rest of
the list; none when there is no leading digit or point-digit. -/
def parseDecimalR (s : List Char) : Option (ℚ × List Char) :=
  match takeDigits s with
  | ([], rest) =>
    match rest with
    | '.' :: r =>
      match takeDigits r with
      | ([], _) => none
      | (fs, r2) => some ((digitsToNat fs : ℚ) / (10 : ℚ) ^ fs.length, r2)
    | _ => none
  | (ds, rest) =>
    match rest with
    | '.' :: r =>
      match takeDigits r with
      | (fs, r2) => some ((digitsToNat (ds ++ fs) : ℚ) / (10 : ℚ) ^ fs.length, r2)
    | _ => some ((digitsToNat ds : ℚ), rest)

/-- Signed decimal-literal prefix with remainder. -/
def signedDecimalR : List Char → Option (ℚ × List Char)
  | '-' :: t => (parseDecimalR t).map fun p => (-p.1, p.2)
  | '+' :: t => parseDecimalR t
  | s => parseDecimalR s

/-- JS parseFloat: reads the longest numeric-literal prefix and ignores
any trailing characters; NaN (none) when no prefix parses. -/
def jsParseFloat (s : List Char) : Option ℚ := (signedDecimalR s).map (·.1)

/-- JS Number(str): the empty string converts to 0; otherwise the whole
string must be a numeric literal, else NaN (none). -/
def jsNumber (s : List Char) : Option ℚ :=
  if s = [] then some 0
  else
    match signedDecimalR s with
    | some (q, []) => some q
    | _ => none

/-- JS String.prototype.split with a single-character separator. -/
def jsSplit (sep : Char) : List Char → List (List Char)
  | [] => [[]]
  | c :: t =>
    match jsSplit sep t with
    | [] => [[]]
    | r :: rs => if c = sep then [] :: r :: rs else (c :: r) :: rs

/-- The isNaN(v) ? 0 : v validation step, with none modelling NaN. -/
def fixNaN (o : Option ℚ) : ℚ := o.getD 0

/-- The numeric-triple pipeline of parseOrigin and parseAxis in
urdfParser.ts: split on spaces, map parseFloat over the tokens, then
map NaN components to 0 component-wise. -/
def nanFixedVecL (s : List Char) : List ℚ :=
  ((jsSplit ' ' s).map jsParseFloat).map fixNaN

/-- nanFixedVecL on a String attribute value. -/
def nanFixedVec (s : String) : List ℚ := nanFixedVecL s.toList

/-! ## Intermediate model records (urdfTypes.ts) -/

structure URDFLinkVisual where
  filename : String
  scale : List (Option ℚ)
  xyz : List ℚ
  rpy : List ℚ
  deriving DecidableEq

structure URDFLink where
  name : String
  visuals : List URDFLinkVisual
  deriving DecidableEq

structure URDFJoint where
  name : String
  type : String
  parent : String
  child : String
  xyz : List ℚ
  rpy : List ℚ
  axis : Option (List ℚ)
  deriving DecidableEq

/-! ## Document parser (urdfParser.ts) -/

/-- parseOrigin: read the first origin descendant's xyz and rpy
attributes (defaulting to "0 0 0"), parseFloat each component and
replace NaN components by 0; both vectors default to zero when the
origin element is absent. -/
def parseOrigin (element : XmlNode) : List ℚ × List ℚ :=
  match qselDesc element "origin" with
  | none => ([0, 0, 0], [0, 0, 0])
  | some originEl =>
    (nanFixedVec (jsOr (getAttribute originEl "xyz") "0 0 0"),
     nanFixedVec (jsOr (getAttribute originEl "rpy") "0 0 0"))

/-- parseAxis: the axis element's xyz attribute parsed like an origin
triple, or none when there is no axis element. -/
def parseAxis (jointEl : XmlNode) : Option (List ℚ) :=
  match qselDesc jointEl "axis" with
  | some axisEl => some (nanFixedVec (jsOr (getAttribute axisEl "xyz") "0 0 0"))
  | none => none

/-- parseVisuals: one record per visual descendant that has a
geometry > mesh child with a non-empty filename; visuals without a mesh
or filename are skipped. -/
def parseVisuals (linkEl : XmlNode) : List URDFLinkVisual :=
  (qAllDesc linkEl "visual").filterMap fun visualEl =>
    match qselChildOf visualEl "geometry" "mesh" with
    | none => none
    | some meshEl =>
      let filename := jsOr (getAttribute meshEl "filename") ""
      if filename = "" then none
      else
        let scaleVals :=
          (jsSplit ' ' (jsOr (getAttribute meshEl "scale") "1 1 1").toList).map jsNumber
        let o := parseOrigin visualEl
        some { filename := filename,
               scale := [(scaleVals.get? 0).join, (scaleVals.get? 1).join,
                         (scaleVals.get? 2).join],
               xyz := o.1, rpy := o.2 }

/-- The Link record built from one link element: a missing or empty
name attribute falls back to "unnamed_link". -/
def mkLinkRecord (linkEl : XmlNode) : URDFLink :=
  { name := jsOr (getAttribute linkEl "name") "unnamed_link",
    visuals := parseVisuals linkEl }

/-- parseLinks: one Link record per robot > link element, in document
order; no element is ever skipped. -/
def parseLinks (doc : XmlNode) : List URDFLink :=
  (qselAllChildOfDoc doc "robot" "link").map mkLinkRecord

/-- parseJoints: one Joint record per robot > joint element that has
both a parent and a child descendant element; joints missing either are
skipped. -/
def parseJoints (doc : XmlNode) : List URDFJoint :=
  (qselAllChildOfDoc doc "robot" "joint").filterMap fun jointEl =>
    match qselDesc jointEl "parent", qselDesc jointEl "child" with
    | some parentEl, some childEl =>
      let o := parseOrigin jointEl
      some { name := jsOr (getAttribute jointEl "name") "unnamed_joint",
             type := jsOr (getAttribute jointEl "type") "fixed",
             parent := jsOr (getAttribute parentEl "link") "",
             child := jsOr (getAttribute childEl "link") "",
             xyz := o.1, rpy := o.2, axis := parseAxis jointEl }
    | _, _ => none

/-- The querySelector("parsererror") check: whether the DOM contains a
parsererror element (the DOMParser signal for malformed markup). -/
def hasParserError (doc : XmlNode) : Bool :=
  (docElems doc).any fun pr => pr.2.tag == "parsererror"

/-- Whether the document contains a robot container element anywhere
(the spec's recognizable root container; used only to state claims). -/
def hasRobotElem (doc : XmlNode) : Bool :=
  (docElems doc).any fun pr => pr.2.tag == "robot"

structure URDFModel where
  links : List URDFLink
  joints : List URDFJoint
  deriving DecidableEq

/-- parseURDF from urdfParser.ts, taking the DOMParser output: throws
(error) exactly when the DOM carries a parsererror element, otherwise
returns the parsed link and joint lists. -/
def parseURDF (doc : XmlNode) : Except String URDFModel :=
  if hasParserError doc then .error "Failed to parse URDF XML"
  else .ok ⟨parseLinks doc, parseJoints doc⟩

/-- Whether an Except value is a thrown failure. -/
def isErr {ε α : Type} : Except ε α → Bool
  | .error _ => true
  | .ok _ => false

/-! ## Kinematic tree assembler (urdfLoader.ts)

Scene transform nodes are identified by allocation order: loadURDFRobot
creates robotRoot first (id 0), buildRobotStructure then creates one
node per Link in document order (the i-th Link has id 1 + i) and one
node per Joint (the k-th Joint has id 1 + links.length + k; a joint
node is allocated before the parent and child links are looked up, so
skipped joints still consume an id, as in the source).  Node.parent
assignments are recorded in an association list where the most recent
assignment shadows older ones; JS Map.set is modelled the same way. -/

/-- The only console.warn of buildRobotStructure: a joint whose parent
or child link cannot be found. -/
inductive Warning where
  | missingParentOrChild (joint : String)
  deriving DecidableEq

/-- One step of the first pass of buildRobotStructure: allocate a link
node and bind the link's name to it (Map.set semantics: the new binding
shadows any previous one). -/
def linkMapStep (acc : List (String × Nat) × Nat) (l : URDFLink) :
    List (String × Nat) × Nat :=
  ((l.name, acc.2) :: acc.1, acc.2 + 1)

/-- The link-name to node-id map built by the first pass of
buildRobotStructure; link node ids start at 1 (robotRoot holds id 0). -/
def linkMapOf (links : List URDFLink) : List (String × Nat) :=
  (links.foldl linkMapStep (([] : List (String × Nat)), 1)).1

structure BuildState where
  parents : List (Nat × Nat)
  warnings : List Warning
  nextId : Nat
  jointMap : List (String × Nat)
  deriving DecidableEq

/-- One iteration of the joint pass of buildRobotStructure: allocate
the joint node and register it in the joint map; if both the parent and
the child link resolve, parent the joint node under the parent link and
the child link under the joint node (overwriting any previous parent of
the child), otherwise warn and skip the joint. -/
def jointStep (lm : List (String × Nat)) (st : BuildState) (j : URDFJoint) :
    BuildState :=
  let jid := st.nextId
  let jm := (j.name, jid) :: st.jointMap
  match lm.lookup j.parent, lm.lookup j.child with
  | some p, some c =>
    { parents := (c, jid) :: (jid, p) :: st.parents,
      warnings := st.warnings, nextId := jid + 1, jointMap := jm }
  | _, _ =>
    { parents := st.parents,
      warnings := st.warnings ++ [.missingParentOrChild j.name],
      nextId := jid + 1, jointMap := jm }

/-- One iteration of the root-link pass of loadURDFRobot: look the root
link's name up in the link map and, when found, parent that node under
robotRoot (id 0). -/
def rootStep (lm : List (String × Nat)) (ps : List (Nat × Nat)) (l : URDFLink) :
    List (Nat × Nat) :=
  match lm.lookup l.name with
  | some id => (id, 0) :: ps
  | none => ps

/-- The root-link pass of loadURDFRobot: links whose name never occurs
as a child in the full parsed joint list are attached under robotRoot. -/
def rootPhase (lm : List (String × Nat)) (links : List URDFLink)
    (joints : List URDFJoint) (parents : List (Nat × Nat)) : List (Nat × Nat) :=
  let childNames := joints.map URDFJoint.child
  (links.filter fun l => !(childNames.contains l.name)).foldl (rootStep lm) parents

structure LoadResult where
  linkMap : List (String × Nat)
  parents : List (Nat × Nat)
  warnings : List Warning
  jointMap : List (String × Nat)
  deriving DecidableEq

/-- The structure-assembly part of loadURDFRobot: create robotRoot
(id 0), build the link nodes and link map, run the joint pass in
document order, then attach root links under robotRoot.  Visual and
mesh attachment never touches a link node's parent and is modelled
separately by the mesh cache below. -/
def loadRobotStructure (links : List URDFLink) (joints : List URDFJoint) :
    LoadResult :=
  let lm := linkMapOf links
  let st := joints.foldl (jointStep lm) ⟨[], [], 1 + links.length, []⟩
  { linkMap := lm, parents := rootPhase lm links joints st.parents,
    warnings := st.warnings, jointMap := st.jointMap }

/-- The current parent of a scene node: the most recent assignment to
its parent property, or none if it was never assigned. -/
def parentOf (r : LoadResult) (id : Nat) : Option Nat := r.parents.lookup id

/-! ## Association-list and fold lemmas -/

theorem lookup_cons_eq {α β : Type} [BEq α] [LawfulBEq α] (k : α) (v : β)
    (t : List (α × β)) : List.lookup k ((k, v) :: t) = some v := by
  simp [List.lookup]

theorem lookup_cons_ne {α β : Type} [BEq α] [LawfulBEq α] {a k : α} (h : a ≠ k)
    (v : β) (t : List (α × β)) : List.lookup a ((k, v) :: t) = List.lookup a t := by
  have hb : (a == k) = false := beq_eq_false_iff_ne.mpr h
  simp [List.lookup, hb]

theorem lookup_mem {α β : Type} [BEq α] [LawfulBEq α] {a : α} {b : β} :
    ∀ {l : List (α × β)}, List.lookup a l = some b → (a, b) ∈ l := by
  intro l
  induction l with
  | nil => intro h; simp [List.lookup] at h
  | cons p t ih =>
    obtain ⟨k, v⟩ := p
    intro h
    by_cases hk : a = k
    · subst hk
      rw [lookup_cons_eq] at h
      exact (Option.some.injEq _ _ ▸ h) ▸ List.mem_cons_self _ _
    · rw [lookup_cons_ne hk] at h
      exact List.mem_cons_of_mem _ (ih h)

lemma linkMapFold_lookup_not_mem (links : List URDFLink) {n : String}
    (h : ∀ l ∈ links, l.name ≠ n) :
    ∀ (m : List (String × Nat)) (k : Nat),
      ((links.foldl linkMapStep (m, k)).1).lookup n = m.lookup n := by
  induction links with
  | nil => intro m k; rfl
  | cons l ls ih =>
    intro m k
    have hl : l.name ≠ n := h l (List.mem_cons_self _ _)
    have hls : ∀ l' ∈ ls, l'.name ≠ n := fun l' hm => h l' (List.mem_cons_of_mem _ hm)
    calc ((List.foldl linkMapStep (linkMapStep (m, k) l) ls).1).lookup n
        = ((l.name, k) :: m).lookup n := ih hls _ _
      _ = m.lookup n := lookup_cons_ne (fun he => hl he.symm) _ _

lemma linkMapFold_lookup_last (links : List URDFLink) {n : String} :
    ∀ (i : Nat) (hi : i < links.length), (links.get ⟨i, hi⟩).name = n →
      (∀ (j : Nat) (hj : j < links.length), i < j → (links.get ⟨j, hj⟩).name ≠ n) →
      ∀ (m : List (String × Nat)) (k : Nat),
        ((links.foldl linkMapStep (m, k)).1).lookup n = some (k + i) := by
  induction links with
  | nil => intro i hi; simp at hi
  | cons l ls ih =>
    intro i hi hname hlast m k
    cases i with
    | zero =>
      have hl : l.name = n := hname
      have hls : ∀ l' ∈ ls, l'.name ≠ n := by
        intro l' hm
        obtain ⟨⟨j, hj⟩, hget⟩ := List.mem_iff_get.mp hm
        have := hlast (j + 1) (by simpa using Nat.succ_lt_succ hj) (Nat.succ_pos j)
        rw [← hget]
        simpa using this
      calc ((List.foldl linkMapStep (linkMapStep (m, k) l) ls).1).lookup n
          = ((l.name, k) :: m).lookup n := linkMapFold_lookup_not_mem ls hls _ _
        _ = some (k + 0) := by rw [hl, lookup_cons_eq, Nat.add_zero]
    | succ i' =>
      have hname' : (ls.get ⟨i', Nat.lt_of_succ_lt_succ hi⟩).name = n := hname
      have hlast' : ∀ (j : Nat) (hj : j < ls.length), i' < j →
          (ls.get ⟨j, hj⟩).name ≠ n := by
        intro j hj hij
        have := hlast (j + 1) (by simpa using Nat.succ_lt_succ hj)
          (Nat.succ_lt_succ hij)
        simpa using this
      have := ih i' (Nat.lt_of_succ_lt_succ hi) hname' hlast'
        ((l.name, k) :: m) (k + 1)
      calc ((List.foldl linkMapStep (linkMapStep (m, k) l) ls).1).lookup n
          = some (k + 1 + i') := this
        _ = some (k + (i' + 1)) := by rw [Nat.add_assoc, Nat.add_comm 1 i']

lemma linkMapFold_lookup_some (links : List URDFLink) {n : String} {v : Nat} :
    ∀ (m : List (String × Nat)) (k : Nat),
      ((links.foldl linkMapStep (m, k)).1).lookup n = some v →
      (∃ i, ∃ hi : i < links.length, (links.get ⟨i, hi⟩).name = n ∧ v = k + i) ∨
        m.lookup n = some v := by
  induction links with
  | nil => intro m k h; exact Or.inr h
  | cons l ls ih =>
    intro m k h
    rcases ih ((l.name, k) :: m) (k + 1) h with ⟨i, hi, hname, hv⟩ | hm
    · exact Or.inl ⟨i + 1, Nat.succ_lt_succ hi, hname, by omega⟩
    · by_cases hk : n = l.name
      · rw [hk, lookup_cons_eq] at hm
        have hv := Option.some.inj hm
        exact Or.inl ⟨0, Nat.succ_pos _, hk.symm, by omega⟩
      · rw [lookup_cons_ne hk] at hm
        exact Or.inr hm

lemma linkMapOf_lookup_some {links : List URDFLink} {n : String} {v : Nat}
    (h : (linkMapOf links).lookup n = some v) :
    ∃ i, ∃ hi : i < links.length, (links.get ⟨i, hi⟩).name = n ∧ v = 1 + i := by
  rcases linkMapFold_lookup_some links [] 1 h with hx | hnil
  · exact hx
  · simp [List.lookup] at hnil

lemma linkMapOf_lookup_pos {links : List URDFLink} {n : String} {v : Nat}
    (h : (linkMapOf links).lookup n = some v) : 1 ≤ v := by
  obtain ⟨i, hi, _, hv⟩ := linkMapOf_lookup_some h
  omega

lemma linkMapOf_lookup_le {links : List URDFLink} {n : String} {v : Nat}
    (h : (linkMapOf links).lookup n = some v) : v ≤ links.length := by
  obtain ⟨i, hi, _, hv⟩ := linkMapOf_lookup_some h
  omega

lemma linkMapOf_lookup_name_inj {links : List URDFLink} {n₁ n₂ : String} {v : Nat}
    (h₁ : (linkMapOf links).lookup n₁ = some v)
    (h₂ : (linkMapOf links).lookup n₂ = some v) : n₁ = n₂ := by
  obtain ⟨i₁, hi₁, hn₁, hv₁⟩ := linkMapOf_lookup_some h₁
  obtain ⟨i₂, hi₂, hn₂, hv₂⟩ := linkMapOf_lookup_some h₂
  have : i₁ = i₂ := by omega
  subst this
  rw [← hn₁, ← hn₂]

lemma linkMapOf_lookup_of_nodup {links : List URDFLink}
    (hnd : (links.map URDFLink.name).Nodup) {i : Nat} (hi : i < links.length) :
    (linkMapOf links).lookup ((links.get ⟨i, hi⟩).name) = some (1 + i) := by
  have hlast : ∀ (j : Nat) (hj : j < links.length), i < j →
      (links.get ⟨j, hj⟩).name ≠ (links.get ⟨i, hi⟩).name := by
    intro j hj hij heq
    have hmi : i < (links.map URDFLink.name).length := by simpa using hi
    have hmj : j < (links.map URDFLink.name).length := by simpa using hj
    have hgm : (links.map URDFLink.name).get ⟨j, hmj⟩ =
        (links.map URDFLink.name).get ⟨i, hmi⟩ := by
      simpa [List.get_map] using heq
    have := (List.Nodup.get_inj_iff hnd).mp hgm
    have : j = i := congrArg Fin.val this
    omega
  exact linkMapFold_lookup_last links i hi rfl hlast [] 1

lemma jointFold_nextId (lm : List (String × Nat)) (js : List URDFJoint) :
    ∀ st : BuildState, (js.foldl (jointStep lm) st).nextId = st.nextId + js.length := by
  induction js with
  | nil => intro st; rfl
  | cons j t ih =>
    intro st
    have hstep : (jointStep lm st j).nextId = st.nextId + 1 := by
      unfold jointStep
      cases lm.lookup j.parent <;> cases lm.lookup j.child <;> rfl
    calc (List.foldl (jointStep lm) (jointStep lm st j) t).nextId
        = (jointStep lm st j).nextId + t.length := ih _
      _ = st.nextId + 1 + t.length := by rw [hstep]
      _ = st.nextId + (t.length + 1) := by omega

lemma jointFold_parents_pos (links : List URDFLink) (js : List URDFJoint) :
    ∀ st : BuildState, 1 ≤ st.nextId → (∀ pr ∈ st.parents, 1 ≤ pr.2) →
      ∀ pr ∈ (js.foldl (jointStep (linkMapOf links)) st).parents, 1 ≤ pr.2 := by
  induction js with
  | nil => intro st _ hps; exact hps
  | cons j t ih =>
    intro st hnext hps
    refine ih (jointStep (linkMapOf links) st j) ?_ ?_
    · have hstep : (jointStep (linkMapOf links) st j).nextId = st.nextId + 1 := by
        unfold jointStep
        cases (linkMapOf links).lookup j.parent <;>
          cases (linkMapOf links).lookup j.child <;> rfl
      omega
    · unfold jointStep
      cases hp : (linkMapOf links).lookup j.parent with
      | none => simpa using hps
      | some p =>
        cases hc : (linkMapOf links).lookup j.child with
        | none => simpa using hps
        | some c =>
          intro pr hpr
          simp only [List.mem_cons] at hpr
          rcases hpr with h | h | h
          · subst h; exact hnext
          · subst h; exact linkMapOf_lookup_pos hp
          · exact hps pr h

lemma rootFold_lookup (lm : List (String × Nat)) (rls : List URDFLink) :
    ∀ (ps : List (Nat × Nat)) (x : Nat),
      ((rls.foldl (rootStep lm) ps).lookup x) =
        if x ∈ rls.filterMap (fun l => lm.lookup l.name) then some 0
        else ps.lookup x := by
  induction rls with
  | nil => intro ps x; simp
  | cons l t ih =>
    intro ps x
    cases hl : lm.lookup l.name with
    | none =>
      have hstep : rootStep lm ps l = ps := by unfold rootStep; rw [hl]
      have hfm : (l :: t).filterMap (fun l => lm.lookup l.name) =
          t.filterMap (fun l => lm.lookup l.name) := by
        rw [List.filterMap_cons, hl]
      have hfold : List.foldl (rootStep lm) ps (l :: t) =
          List.foldl (rootStep lm) ps t := by
        rw [List.foldl_cons, hstep]
      rw [hfold, ih _ x, hfm]
    | some id =>
      have hstep : rootStep lm ps l = (id, 0) :: ps := by unfold rootStep; rw [hl]
      have hfm : (l :: t).filterMap (fun l => lm.lookup l.name) =
          id :: t.filterMap (fun l => lm.lookup l.name) := by
        rw [List.filterMap_cons, hl]
      have hfold : List.foldl (rootStep lm) ps (l :: t) =
          List.foldl (rootStep lm) ((id, 0) :: ps) t := by
        rw [List.foldl_cons, hstep]
      rw [hfold, ih _ x, hfm]
      by_cases hmt : x ∈ t.filterMap (fun l => lm.lookup l.name)
      · rw [if_pos hmt, if_pos (List.mem_cons_of_mem _ hmt)]
      · rw [if_neg hmt]
        by_cases hx : x = id
        · rw [if_pos (by rw [hx]; exact List.mem_cons_self id _), hx, lookup_cons_eq]
        · rw [lookup_cons_ne hx, if_neg (fun hmem => by
            rcases List.mem_cons.mp hmem with h | h
            · exact hx h
            · exact hmt h)]

/-- parentOf over loadRobotStructure, unfolded to the two folds. -/
lemma parentOf_loadRobotStructure (links : List URDFLink) (joints : List URDFJoint)
    (id : Nat) :
    parentOf (loadRobotStructure links joints) id =
      (((links.filter fun l =>
          !((joints.map URDFJoint.child).contains l.name)).foldl
        (rootStep (linkMapOf links))
        ((joints.foldl (jointStep (linkMapOf links))
          ⟨[], [], 1 + links.length, []⟩).parents)).lookup id) := rfl

/-- C2 as stated: for every parsed document, the node of the i-th Link
(node id 1 + i) ends up parented directly under robotRoot (id 0) if
and only if its name never appears as a joint child across the full
parsed joint list. -/
def rootLinkIffNeverChild : Prop :=
  ∀ (links : List URDFLink) (joints : List URDFJoint) (i : Nat)
    (hi : i < links.length),
    parentOf (loadRobotStructure links joints) (1 + i) = some 0 ↔
      (links.get ⟨i, hi⟩).name ∉ joints.map URDFJoint.child

/-- C2 counterexample: in a document with two Links both named "A" and
no Joints, the first "A" node is shadowed in the name-keyed link map,
so the root-attachment pass parents the second node twice and the first
node never receives robotRoot as parent even though its name never
appears as a joint child — refuting the claimed equivalence. -/
theorem c2_counterexample_duplicate_link_names : ¬ rootLinkIffNeverChild := by
  intro h
  exact absurd (h [⟨"A", []⟩, ⟨"A", []⟩] [] 0 (by decide)) (by decide)

/-- C2 (amended): for documents whose link names are pairwise distinct,
a Link node is parented directly under robotRoot if and only if its
name never appears as a joint child link name across the full parsed
joint list (dangling joints included); with repeated link names only
the most recently created node of a root name is attached. -/
theorem c2_amended_root_link_iff (links : List URDFLink) (joints : List URDFJoint)
    (hnd : (links.map URDFLink.name).Nodup) (i : Nat) (hi : i < links.length) :
    parentOf (loadRobotStructure links joints) (1 + i) = some 0 ↔
      (links.get ⟨i, hi⟩).name ∉ joints.map URDFJoint.child := by
  have hlook : (linkMapOf links).lookup ((links.get ⟨i, hi⟩).name) = some (1 + i) :=
    linkMapOf_lookup_of_nodup hnd hi
  have hroot : ((1 + i) ∈ (links.filter fun l =>
      !((joints.map URDFJoint.child).contains l.name)).filterMap
        (fun l => (linkMapOf links).lookup l.name)) ↔
      (links.get ⟨i, hi⟩).name ∉ joints.map URDFJoint.child := by
    constructor
    · intro hm
      obtain ⟨l, hlmem, hlk⟩ := List.mem_filterMap.mp hm
      have hname : l.name = (links.get ⟨i, hi⟩).name :=
        linkMapOf_lookup_name_inj hlk hlook
      have hfil := (List.mem_filter.mp hlmem).2
      rw [hname] at hfil
      simpa using hfil
    · intro hn
      refine List.mem_filterMap.mpr ⟨links.get ⟨i, hi⟩, ?_, hlook⟩
      refine List.mem_filter.mpr ⟨List.get_mem links i hi, ?_⟩
      simpa using hn
  rw [parentOf_loadRobotStructure, rootFold_lookup]
  by_cases hn : (links.get ⟨i, hi⟩).name ∈ joints.map URDFJoint.child
  · rw [if_neg (fun hm => (hroot.mp hm) hn)]
    constructor
    · intro hsome
      exfalso
      have hmem := lookup_mem hsome
      have := jointFold_parents_pos links joints ⟨[], [], 1 + links.length, []⟩
        (Nat.le_add_right 1 links.length) (by simp) _ hmem
      simp at this
    · intro hcon
      exact absurd hn hcon
  · rw [if_pos (hroot.mpr hn)]
    simpa using hn

/-- C2 witness: two distinctly named links with one dangling joint
whose child is "B"; the theorem yields that node 1 ("A") is attached
to robotRoot and node 2 ("B") is not. -/
theorem c2_amended_root_link_iff_witness :
    parentOf (loadRobotStructure [⟨"A", []⟩, ⟨"B", []⟩]
        [⟨"j", "fixed", "X", "B", [], [], none⟩]) 1 = some 0 ∧
    parentOf (loadRobotStructure [⟨"A", []⟩, ⟨"B", []⟩]
        [⟨"j", "fixed", "X", "B", [], [], none⟩]) 2 ≠ some 0 :=
  ⟨(c2_amended_root_link_iff _ _ (by decide) 0 (by decide)).mpr (by decide),
   fun h => ((c2_amended_root_link_iff _ _ (by decide) 1 (by decide)).mp h) (by decide)⟩

lemma rootIds_not_mem_of_child (links : List URDFLink) (joints : List URDFJoint)
    {cname : String} {cid : Nat}
    (hc : (linkMapOf links).lookup cname = some cid)
    (hchild : cname ∈ joints.map URDFJoint.child) :
    cid ∉ (links.filter fun l =>
      !((joints.map URDFJoint.child).contains l.name)).filterMap
        (fun l => (linkMapOf links).lookup l.name) := by
  intro hm
  obtain ⟨l, hlmem, hlk⟩ := List.mem_filterMap.mp hm
  have hname : l.name = cname := linkMapOf_lookup_name_inj hlk hc
  have hfil := (List.mem_filter.mp hlmem).2
  rw [hname] at hfil
  have : cname ∉ joints.map URDFJoint.child := by simpa using hfil
  exact this hchild

lemma jointFold_lookup_preserved (links : List URDFLink) {cname : String}
    {cid tgt : Nat} (hc : (linkMapOf links).lookup cname = some cid) :
    ∀ (js : List URDFJoint) (st : BuildState),
      links.length < st.nextId →
      st.parents.lookup cid = some tgt →
      (∀ K ∈ js, K.child = cname → (linkMapOf links).lookup K.parent = none) →
      ((js.foldl (jointStep (linkMapOf links)) st).parents).lookup cid = some tgt := by
  intro js
  induction js with
  | nil => intro st _ hst _; exact hst
  | cons K t ih =>
    intro st hnext hst hjs
    have htail : ∀ K' ∈ t, K'.child = cname →
        (linkMapOf links).lookup K'.parent = none :=
      fun K' hm he => hjs K' (List.mem_cons_of_mem _ hm) he
    cases hKp : (linkMapOf links).lookup K.parent with
    | some p =>
      cases hKc : (linkMapOf links).lookup K.child with
      | some c =>
        have hKch : K.child ≠ cname := by
          intro he
          have := hjs K (List.mem_cons_self _ _) he
          rw [this] at hKp
          cases hKp
        have hcne : cid ≠ c := by
          intro he
          exact hKch (linkMapOf_lookup_name_inj (he ▸ hKc) hc)
        have hjne : cid ≠ st.nextId := by
          have := linkMapOf_lookup_le hc
          omega
        have hparents : (jointStep (linkMapOf links) st K).parents =
            (c, st.nextId) :: (st.nextId, p) :: st.parents := by
          simp [jointStep, hKp, hKc]
        have hnid : (jointStep (linkMapOf links) st K).nextId = st.nextId + 1 := by
          simp [jointStep, hKp, hKc]
        refine ih _ (by rw [hnid]; omega) ?_ htail
        rw [hparents, lookup_cons_ne hcne, lookup_cons_ne hjne]
        exact hst
      | none =>
        have hparents : (jointStep (linkMapOf links) st K).parents = st.parents := by
          simp [jointStep, hKp, hKc]
        have hnid : (jointStep (linkMapOf links) st K).nextId = st.nextId + 1 := by
          simp [jointStep, hKp, hKc]
        refine ih _ (by rw [hnid]; omega) ?_ htail
        rw [hparents]
        exact hst
    | none =>
      cases hKc : (linkMapOf links).lookup K.child with
      | some c =>
        have hparents : (jointStep (linkMapOf links) st K).parents = st.parents := by
          simp [jointStep, hKp, hKc]
        have hnid : (jointStep (linkMapOf links) st K).nextId = st.nextId + 1 := by
          simp [jointStep, hKp, hKc]
        refine ih _ (by rw [hnid]; omega) ?_ htail
        rw [hparents]
        exact hst
      | none =>
        have hparents : (jointStep (linkMapOf links) st K).parents = st.parents := by
          simp [jointStep, hKp, hKc]
        have hnid : (jointStep (linkMapOf links) st K).nextId = st.nextId + 1 := by
          simp [jointStep, hKp, hKc]
        refine ih _ (by rw [hnid]; omega) ?_ htail
        rw [hparents]
        exact hst

/-- C3 as stated: when two joints that both resolve name the same
child link, the child link node keeps the parent assigned by the
earlier joint (node id 1 + links.length + pre.length). -/
def duplicateChildKeepsFirst : Prop :=
  ∀ (links : List URDFLink) (pre mid post : List URDFJoint) (j₁ j₂ : URDFJoint)
    (p₁ p₂ cid : Nat),
    (linkMapOf links).lookup j₁.parent = some p₁ →
    (linkMapOf links).lookup j₂.parent = some p₂ →
    (linkMapOf links).lookup j₁.child = some cid →
    j₂.child = j₁.child →
    parentOf (loadRobotStructure links (pre ++ j₁ :: mid ++ j₂ :: post)) cid =
      some (1 + links.length + pre.length)

/-- C3 counterexample: with links A, B, C and joints j1 : A to C and
j2 : B to C, the node of link C ends up parented under j2's joint node
(id 5), not j1's (id 4) as the claim requires — the later conflicting
joint is processed, it reassigns the child's parent, and no warning of
any kind is recorded for the run. -/
theorem c3_counterexample_conflicting_joint_not_skipped :
    ¬ duplicateChildKeepsFirst ∧
    (loadRobotStructure [⟨"A", []⟩, ⟨"B", []⟩, ⟨"C", []⟩]
      [⟨"j1", "fixed", "A", "C", [], [], none⟩,
       ⟨"j2", "fixed", "B", "C", [], [], none⟩]).warnings = [] := by
  constructor
  · intro h
    exact absurd
      (h [⟨"A", []⟩, ⟨"B", []⟩, ⟨"C", []⟩] [] [] []
        ⟨"j1", "fixed", "A", "C", [], [], none⟩
        ⟨"j2", "fixed", "B", "C", [], [], none⟩ 1 2 3
        (by decide) (by decide) (by decide) rfl)
      (by decide)
  · decide

/-- C3 (amended): when several joints name the same child link, the
child link node ends up parented under the joint node of the last
joint in document order whose parent and child links both resolve; the
conflicting joint is not skipped and no conflict warning is emitted
(the run's warnings only ever record missing parent or child links). -/
theorem c3_amended_last_conflicting_joint_wins (links : List URDFLink)
    (pre post : List URDFJoint) (J : URDFJoint) (p cid : Nat)
    (hp : (linkMapOf links).lookup J.parent = some p)
    (hc : (linkMapOf links).lookup J.child = some cid)
    (hpost : ∀ K ∈ post, K.child = J.child →
      (linkMapOf links).lookup K.parent = none) :
    parentOf (loadRobotStructure links (pre ++ J :: post)) cid =
      some (1 + links.length + pre.length) := by
  have hnext1 : (List.foldl (jointStep (linkMapOf links))
      ⟨[], [], 1 + links.length, []⟩ pre).nextId = 1 + links.length + pre.length := by
    rw [jointFold_nextId]
  have hst2par : (jointStep (linkMapOf links)
      (List.foldl (jointStep (linkMapOf links)) ⟨[], [], 1 + links.length, []⟩ pre)
      J).parents =
      (cid, 1 + links.length + pre.length) ::
        (1 + links.length + pre.length, p) ::
        (List.foldl (jointStep (linkMapOf links))
          ⟨[], [], 1 + links.length, []⟩ pre).parents := by
    simp [jointStep, hp, hc, hnext1]
  have hst2nid : links.length < (jointStep (linkMapOf links)
      (List.foldl (jointStep (linkMapOf links)) ⟨[], [], 1 + links.length, []⟩ pre)
      J).nextId := by
    have : (jointStep (linkMapOf links)
        (List.foldl (jointStep (linkMapOf links)) ⟨[], [], 1 + links.length, []⟩ pre)
        J).nextId = 1 + links.length + pre.length + 1 := by
      simp [jointStep, hp, hc, hnext1]
    omega
  have hlook2 : (jointStep (linkMapOf links)
      (List.foldl (jointStep (linkMapOf links)) ⟨[], [], 1 + links.length, []⟩ pre)
      J).parents.lookup cid = some (1 + links.length + pre.length) := by
    rw [hst2par, lookup_cons_eq]
  have hfin : ((List.foldl (jointStep (linkMapOf links))
      ⟨[], [], 1 + links.length, []⟩ (pre ++ J :: post)).parents).lookup cid =
      some (1 + links.length + pre.length) := by
    rw [List.foldl_append, List.foldl_cons]
    exact jointFold_lookup_preserved links hc post _ hst2nid hlook2 hpost
  have hchild : J.child ∈ (pre ++ J :: post).map URDFJoint.child :=
    List.mem_map.mpr ⟨J, by simp, rfl⟩
  have hnoroot := rootIds_not_mem_of_child links (pre ++ J :: post) hc hchild
  rw [parentOf_loadRobotStructure, rootFold_lookup, if_neg hnoroot]
  exact hfin

/-- C3 witness: the counterexample document run through the amended
theorem — the node of link C (id 3) is parented under j2's node
(id 5). -/
theorem c3_amended_last_conflicting_joint_wins_witness :
    parentOf (loadRobotStructure [⟨"A", []⟩, ⟨"B", []⟩, ⟨"C", []⟩]
      [⟨"j1", "fixed", "A", "C", [], [], none⟩,
       ⟨"j2", "fixed", "B", "C", [], [], none⟩]) 3 = some 5 :=
  c3_amended_last_conflicting_joint_wins [⟨"A", []⟩, ⟨"B", []⟩, ⟨"C", []⟩]
    [⟨"j1", "fixed", "A", "C", [], [], none⟩] []
    ⟨"j2", "fixed", "B", "C", [], [], none⟩ 2 3
    (by decide) (by decide) (fun K hm _ => absurd hm (List.not_mem_nil K))

/-- C4 as stated: parseURDF throws exactly when the markup is
malformed (a parsererror element is present) or the document lacks a
recognizable robot root container. -/
def parseFailsIffMalformedOrNoRoot : Prop :=
  ∀ doc : XmlNode, isErr (parseURDF doc) = true ↔
    (hasParserError doc = true ∨ hasRobotElem doc = false)

/-- C4 counterexample: a well-formed document whose root element is
foo, with no robot container anywhere, parses successfully into empty
link and joint lists — yet the claim requires a MalformedDocument
failure for it. -/
theorem c4_counterexample_missing_root_not_fatal :
    ¬ parseFailsIffMalformedOrNoRoot := by
  intro h
  exact absurd (h (.elem "foo" [] .nil)) (by decide)

/-- C4 (amended): parseURDF throws if and only if the DOM carries a
parsererror element (the input markup was not well-formed); a missing
robot container, like every missing optional field, is not a failure —
the parse simply returns empty or partial lists, and no other
condition surfaces as a thrown failure. -/
theorem c4_amended_fails_iff_parsererror (doc : XmlNode) :
    isErr (parseURDF doc) = true ↔ hasParserError doc = true := by
  unfold parseURDF
  by_cases h : hasParserError doc = true
  · rw [if_pos h]
    simp [isErr, h]
  · rw [if_neg h]
    simp [isErr, h]

/-- C4 witness: a parsererror document throws; note the theorem is
applied at a concrete document. -/
theorem c4_amended_fails_iff_parsererror_witness :
    isErr (parseURDF (XmlNode.elem "parsererror" [] .nil)) = true :=
  (c4_amended_fails_iff_parsererror (XmlNode.elem "parsererror" [] .nil)).mpr
    (by decide)

/-! ## Numeric-triple leniency (C8) -/

lemma jsSplit_ne_nil (sep : Char) (s : List Char) : jsSplit sep s ≠ [] := by
  induction s with
  | nil => simp [jsSplit]
  | cons c t ih =>
    cases h : jsSplit sep t with
    | nil => exact absurd h ih
    | cons r rs =>
      by_cases hc : c = sep <;> simp [jsSplit, h, hc]

lemma jsSplit_sep_append (sep : Char) (a : List Char) :
    ∀ b : List Char, sep ∉ a →
      jsSplit sep (a ++ sep :: b) = a :: jsSplit sep b := by
  induction a with
  | nil =>
    intro b _
    cases h : jsSplit sep b with
    | nil => exact absurd h (jsSplit_ne_nil sep b)
    | cons r rs => simp [jsSplit, h]
  | cons c t ih =>
    intro b hmem
    have hc : c ≠ sep := fun he => hmem (he ▸ List.mem_cons_self c t)
    have ht : sep ∉ t := fun hm => hmem (List.mem_cons_of_mem _ hm)
    have hrec := ih b ht
    show (match jsSplit sep (t ++ sep :: b) with
      | [] => [[]]
      | r :: rs => if c = sep then [] :: r :: rs else (c :: r) :: rs) =
      (c :: t) :: jsSplit sep b
    rw [hrec]
    simp [hc]

lemma jsSplit_no_sep (sep : Char) (a : List Char) (h : sep ∉ a) :
    jsSplit sep a = [a] := by
  induction a with
  | nil => rfl
  | cons c t ih =>
    have hc : c ≠ sep := fun he => h (he ▸ List.mem_cons_self c t)
    have ht := ih (fun hm => h (List.mem_cons_of_mem _ hm))
    simp [jsSplit, ht, hc]

lemma jsOr_some_ne (s d : String) (h : s ≠ "") : jsOr (some s) d = s := by
  simp [jsOr, h]

/-- C8: in a whitespace-separated numeric triple, a token that fails
to parse as a number yields 0 for its component only: the surrounding
components keep their parsed values and the vector is never discarded.
Stated for the parsing pipeline shared by origin xyz, origin rpy and
axis xyz, and instantiated on a whole origin element. -/
theorem c8_bad_token_zeroes_single_component (a b c : List Char) (x z : ℚ)
    (ha : ' ' ∉ a) (hb : ' ' ∉ b) (hc : ' ' ∉ c)
    (hax : jsParseFloat a = some x) (hbn : jsParseFloat b = none)
    (hcz : jsParseFloat c = some z) :
    nanFixedVecL (a ++ ' ' :: (b ++ ' ' :: c)) = [x, 0, z] ∧
    parseOrigin (.elem "joint" []
      (.cons (.elem "origin"
        [("xyz", ⟨a ++ ' ' :: (b ++ ' ' :: c)⟩), ("rpy", "0 0 0")] .nil) .nil)) =
      ([x, 0, z], [0, 0, 0]) := by
  have hsplit : jsSplit ' ' (a ++ ' ' :: (b ++ ' ' :: c)) = [a, b, c] := by
    rw [jsSplit_sep_append ' ' a _ ha, jsSplit_sep_append ' ' b _ hb,
      jsSplit_no_sep ' ' c hc]
  have hvec : nanFixedVecL (a ++ ' ' :: (b ++ ' ' :: c)) = [x, 0, z] := by
    unfold nanFixedVecL
    rw [hsplit]
    simp [hax, hbn, hcz, fixNaN]
  refine ⟨hvec, ?_⟩
  have hne : (⟨a ++ ' ' :: (b ++ ' ' :: c)⟩ : String) ≠ "" := by
    intro he
    have hdata := congrArg String.data he
    simp at hdata
  show (nanFixedVec (jsOr (some ⟨a ++ ' ' :: (b ++ ' ' :: c)⟩) "0 0 0"),
        nanFixedVec (jsOr (some "0 0 0") "0 0 0")) = ([x, 0, z], [0, 0, 0])
  rw [jsOr_some_ne _ _ hne]
  simp only [Prod.mk.injEq]
  exact ⟨hvec, by decide⟩

/-- C8 witness: parsing the triple "7 bad 3" keeps 7 and 3 and zeroes
only the middle component, on the raw pipeline and on an origin
element. -/
theorem c8_bad_token_zeroes_single_component_witness :
    nanFixedVecL ("7".toList ++ ' ' :: ("bad".toList ++ ' ' :: "3".toList)) =
      [7, 0, 3] ∧
    parseOrigin (.elem "joint" []
      (.cons (.elem "origin"
        [("xyz", ⟨"7".toList ++ ' ' :: ("bad".toList ++ ' ' :: "3".toList)⟩),
         ("rpy", "0 0 0")] .nil) .nil)) = ([7, 0, 3], [0, 0, 0]) :=
  c8_bad_token_zeroes_single_component "7".toList "bad".toList "3".toList 7 3
    (by decide) (by decide) (by decide) (by decide) (by decide) (by decide)

/-- C9: a link element with no name attribute is neither skipped nor
rejected — parseLinks emits a record for every robot > link element and
defaults the name to "unnamed_link" — and the assembler's name-keyed
link map retains only the most recently created node for a repeated
name (the binding of the last link with that name wins). -/
theorem c9_unnamed_links_kept_and_last_node_wins :
    (∀ doc : XmlNode,
      (parseLinks doc).length = (qselAllChildOfDoc doc "robot" "link").length ∧
      ∀ (i : Nat) (hi : i < (parseLinks doc).length)
        (hi' : i < (qselAllChildOfDoc doc "robot" "link").length),
        getAttribute ((qselAllChildOfDoc doc "robot" "link").get ⟨i, hi'⟩) "name" =
          none →
        ((parseLinks doc).get ⟨i, hi⟩).name = "unnamed_link") ∧
    (∀ (links : List URDFLink) (i : Nat) (hi : i < links.length),
      (∀ (j : Nat) (hj : j < links.length), i < j →
        (links.get ⟨j, hj⟩).name ≠ (links.get ⟨i, hi⟩).name) →
      (linkMapOf links).lookup ((links.get ⟨i, hi⟩).name) = some (1 + i)) := by
  constructor
  · intro doc
    refine ⟨by simp [parseLinks], ?_⟩
    intro i hi hi' hattr
    have hget : (parseLinks doc).get ⟨i, hi⟩ =
        mkLinkRecord ((qselAllChildOfDoc doc "robot" "link").get ⟨i, hi'⟩) := by
      simp [parseLinks]
    rw [hget]
    simp only [List.get_eq_getElem] at hattr
    simp [mkLinkRecord, hattr, jsOr]
  · intro links i hi hlast
    exact linkMapFold_lookup_last links i hi rfl hlast [] 1

/-- C9 witness: a document with two nameless links yields two records
both named "unnamed_link", and the link map for two links sharing that
name resolves to the second node (id 2). -/
theorem c9_unnamed_links_kept_and_last_node_wins_witness :
    ((parseLinks (XmlNode.elem "robot" []
      (.cons (.elem "link" [] .nil) (.cons (.elem "link" [] .nil) .nil)))).get
        ⟨1, by decide⟩).name = "unnamed_link" ∧
    (linkMapOf [⟨"unnamed_link", []⟩, ⟨"unnamed_link", []⟩]).lookup
      "unnamed_link" = some 2 :=
  ⟨(c9_unnamed_links_kept_and_last_node_wins.1 _).2 1 (by decide) (by decide)
      (by decide),
   c9_unnamed_links_kept_and_last_node_wins.2
      [⟨"unnamed_link", []⟩, ⟨"unnamed_link", []⟩] 1 (by decide)
      (fun j hj hij => absurd (Nat.lt_of_lt_of_le hij (Nat.lt_succ_iff.mp hj))
        (lt_irrefl 1))⟩

/-! ## Mesh cache (urdfLoader.ts)

The module-level meshCache maps a resolved full path to the promise of
its load; per visual the loader checks the cache, triggers
ImportMeshAsync only on a miss, and clones result.meshes[0] for its
own placement.  Template meshes and clones are modelled by allocation
ids; every triggered fetch is logged together with the requesting
scene (the cache key is the path alone, exactly as in the source).
JS is single threaded, so the check-and-insert below is atomic and
concurrent requests are an interleaving of these steps. -/

structure MeshInstance where
  id : Nat
  clonedFrom : Nat
  deriving DecidableEq

structure MeshState where
  cache : List (String × Nat)
  nextId : Nat
  fetchLog : List (String × Nat)
  deriving DecidableEq

/-- Per-visual mesh handling in loadURDFRobot: if the resolved full
path is not cached, trigger the fetch (allocate the template mesh, log
the fetch); then clone the cached template into a fresh instance for
this visual. -/
def requestMesh (s : MeshState) (scene : Nat) (path : String) :
    MeshState × MeshInstance :=
  let (s₁, tid) :=
    match s.cache.lookup path with
    | some t => (s, t)
    | none =>
      ({ cache := (path, s.nextId) :: s.cache, nextId := s.nextId + 1,
         fetchLog := s.fetchLog ++ [(path, scene)] }, s.nextId)
  ({ s₁ with nextId := s₁.nextId + 1 }, ⟨s₁.nextId, tid⟩)

/-- n requests for the same path, in sequence, returning the final
state and the instance handed to each requester. -/
def requestN (s : MeshState) (scene : Nat) (path : String) :
    Nat → MeshState × List MeshInstance
  | 0 => (s, [])
  | n + 1 =>
    let r₁ := requestMesh s scene path
    let r₂ := requestN r₁.1 scene path n
    (r₂.1, r₁.2 :: r₂.2)

/-- How many fetches of a path the log records. -/
def fetchCount (s : MeshState) (path : String) : Nat :=
  (s.fetchLog.filter fun pr => pr.1 == path).length

/-- Cache well-formedness: every cached template id was allocated
before the current allocation counter. -/
def MeshWF (s : MeshState) : Prop := ∀ pr ∈ s.cache, pr.2 < s.nextId

/-- The instances handed out by n consecutive cache hits on a template:
fresh consecutive ids starting at start, all cloned from t. -/
def instancesFrom (start t : Nat) : Nat → List MeshInstance
  | 0 => []
  | n + 1 => ⟨start, t⟩ :: instancesFrom (start + 1) t n

lemma instancesFrom_length (t : Nat) :
    ∀ (n start : Nat), (instancesFrom start t n).length = n := by
  intro n
  induction n with
  | zero => intro start; rfl
  | succ m ih => intro start; simp [instancesFrom, ih]

lemma instancesFrom_mem (t : Nat) :
    ∀ (n start : Nat), ∀ inst ∈ instancesFrom start t n,
      inst.clonedFrom = t ∧ start ≤ inst.id := by
  intro n
  induction n with
  | zero => intro start inst h; simp [instancesFrom] at h
  | succ m ih =>
    intro start inst h
    rcases List.mem_cons.mp h with he | ht
    · subst he; exact ⟨rfl, le_refl _⟩
    · obtain ⟨h1, h2⟩ := ih (start + 1) inst ht
      exact ⟨h1, by omega⟩

lemma instancesFrom_ids_nodup (t : Nat) :
    ∀ (n start : Nat), ((instancesFrom start t n).map MeshInstance.id).Nodup := by
  intro n
  induction n with
  | zero => intro start; simp [instancesFrom]
  | succ m ih =>
    intro start
    refine List.nodup_cons.mpr ⟨?_, ih (start + 1)⟩
    intro hmem
    obtain ⟨inst, hin, hid⟩ := List.mem_map.mp hmem
    have h2 := (instancesFrom_mem t m (start + 1) inst hin).2
    have hid' : inst.id = start := hid
    omega

lemma requestMesh_hit (s : MeshState) (scene : Nat) (path : String) (t : Nat)
    (h : s.cache.lookup path = some t) :
    requestMesh s scene path = ({ s with nextId := s.nextId + 1 }, ⟨s.nextId, t⟩) := by
  simp [requestMesh, h]

lemma requestN_hit (scene : Nat) (path : String) (t : Nat) :
    ∀ (n : Nat) (s : MeshState), s.cache.lookup path = some t →
      (requestN s scene path n).1.cache = s.cache ∧
      (requestN s scene path n).1.fetchLog = s.fetchLog ∧
      (requestN s scene path n).2 = instancesFrom s.nextId t n := by
  intro n
  induction n with
  | zero => intro s _; exact ⟨rfl, rfl, rfl⟩
  | succ m ih =>
    intro s h
    have hreq := requestMesh_hit s scene path t h
    have hs₁ : ({ s with nextId := s.nextId + 1 } : MeshState).cache.lookup path =
        some t := h
    obtain ⟨h1, h2, h3⟩ := ih { s with nextId := s.nextId + 1 } hs₁
    simp only [requestN, hreq]
    exact ⟨h1, h2, by rw [h3]; rfl⟩

/-- C5: requesting one resolved location n times (n at least 1) from a
cold cache triggers exactly one underlying fetch; every requester gets
its own instance — the instance ids are pairwise distinct and each
instance is a clone of the cached template, never the template mesh
itself. -/
theorem c5_one_fetch_and_independent_clones (s : MeshState) (scene : Nat)
    (path : String) (n : Nat)
    (hmiss : s.cache.lookup path = none) (hn : 1 ≤ n) :
    fetchCount (requestN s scene path n).1 path = fetchCount s path + 1 ∧
    (requestN s scene path n).2.length = n ∧
    ((requestN s scene path n).2.map MeshInstance.id).Nodup ∧
    ∀ inst ∈ (requestN s scene path n).2,
      inst.clonedFrom = s.nextId ∧ inst.id ≠ s.nextId := by
  obtain ⟨m, rfl⟩ : ∃ m, n = m + 1 := ⟨n - 1, by omega⟩
  have hreq : requestMesh s scene path =
      ((⟨(path, s.nextId) :: s.cache, s.nextId + 1 + 1,
          s.fetchLog ++ [(path, scene)]⟩ : MeshState),
        ⟨s.nextId + 1, s.nextId⟩) := by
    simp [requestMesh, hmiss]
  have hhit : ((⟨(path, s.nextId) :: s.cache, s.nextId + 1 + 1,
      s.fetchLog ++ [(path, scene)]⟩ : MeshState)).cache.lookup path =
      some s.nextId := lookup_cons_eq path s.nextId s.cache
  obtain ⟨h1, h2, h3⟩ := requestN_hit scene path s.nextId m _ hhit
  have h2' : (requestN (⟨(path, s.nextId) :: s.cache, s.nextId + 1 + 1,
      s.fetchLog ++ [(path, scene)]⟩ : MeshState) scene path m).1.fetchLog =
      s.fetchLog ++ [(path, scene)] := h2
  have h3' : (requestN (⟨(path, s.nextId) :: s.cache, s.nextId + 1 + 1,
      s.fetchLog ++ [(path, scene)]⟩ : MeshState) scene path m).2 =
      instancesFrom (s.nextId + 1 + 1) s.nextId m := h3
  simp only [requestN, hreq]
  refine ⟨?_, ?_, ?_, ?_⟩
  · simp only [fetchCount]
    rw [h2']
    simp [List.filter_append]
  · rw [h3']
    simp [instancesFrom_length]
  · simp only [List.map_cons]
    rw [h3']
    refine List.nodup_cons.mpr ⟨?_, instancesFrom_ids_nodup s.nextId m _⟩
    intro hmem
    obtain ⟨inst, hin, hid⟩ := List.mem_map.mp hmem
    have hge := (instancesFrom_mem s.nextId m (s.nextId + 1 + 1) inst hin).2
    have hid' : inst.id = s.nextId + 1 := hid
    omega
  · rw [h3']
    intro inst hmem
    rcases List.mem_cons.mp hmem with he | ht
    · subst he
      refine ⟨rfl, ?_⟩
      show s.nextId + 1 ≠ s.nextId
      omega
    · obtain ⟨hcl, hge⟩ := instancesFrom_mem s.nextId m (s.nextId + 1 + 1) inst ht
      exact ⟨hcl, by omega⟩

/-- C5 witness: three requests for one location from an empty cache —
one fetch, three distinct clones of the template. -/
theorem c5_one_fetch_and_independent_clones_witness :
    fetchCount (requestN ⟨[], 0, []⟩ 0 "meshes/foo.stl" 3).1 "meshes/foo.stl" =
      fetchCount ⟨[], 0, []⟩ "meshes/foo.stl" + 1 ∧
    (requestN ⟨[], 0, []⟩ 0 "meshes/foo.stl" 3).2.length = 3 ∧
    ((requestN ⟨[], 0, []⟩ 0 "meshes/foo.stl" 3).2.map MeshInstance.id).Nodup ∧
    ∀ inst ∈ (requestN ⟨[], 0, []⟩ 0 "meshes/foo.stl" 3).2,
      inst.clonedFrom = (⟨[], 0, []⟩ : MeshState).nextId ∧
        inst.id ≠ (⟨[], 0, []⟩ : MeshState).nextId :=
  c5_one_fetch_and_independent_clones ⟨[], 0, []⟩ 0 "meshes/foo.stl" 3 rfl
    (by omega)

lemma requestMesh_preserves_lookup (s : MeshState) (scene : Nat) (q path : String)
    (t : Nat) (h : s.cache.lookup path = some t) :
    ((requestMesh s scene q).1).cache.lookup path = some t := by
  cases hq : s.cache.lookup q with
  | some t' => simpa [requestMesh, hq] using h
  | none =>
    have hne : path ≠ q := by
      intro he
      rw [he, hq] at h
      cases h
    simp only [requestMesh, hq]
    rw [lookup_cons_ne hne]
    exact h

lemma requestMesh_nextId_lt (s : MeshState) (scene : Nat) (q : String) :
    s.nextId < ((requestMesh s scene q).1).nextId := by
  cases hq : s.cache.lookup q with
  | some t' => simp [requestMesh, hq]
  | none =>
    simp [requestMesh, hq]
    omega

/-- The second loader call's visual processing: a sequence of mesh
requests against the shared module-level cache. -/
def processPaths (s : MeshState) (scene : Nat) (qs : List String) : MeshState :=
  qs.foldl (fun st q => (requestMesh st scene q).1) s

lemma processPaths_preserves_lookup (scene : Nat) (path : String) (t : Nat) :
    ∀ (qs : List String) (s : MeshState), s.cache.lookup path = some t →
      (processPaths s scene qs).cache.lookup path = some t := by
  intro qs
  induction qs with
  | nil => intro s h; exact h
  | cons q tl ih =>
    intro s h
    exact ih _ (requestMesh_preserves_lookup s scene q path t h)

lemma processPaths_nextId_mono (scene : Nat) :
    ∀ (qs : List String) (s : MeshState),
      s.nextId ≤ (processPaths s scene qs).nextId := by
  intro qs
  induction qs with
  | nil => intro s; exact le_refl _
  | cons q tl ih =>
    intro s
    exact le_trans (le_of_lt (requestMesh_nextId_lt s scene q)) (ih _)

/-- C10: cache entries are never removed or invalidated.  Starting
from any state whose cache already holds the template for a path (the
first loadURDFRobot call), after any further sequence of requests — in
any scene, for any documents — the entry still resolves to the same
template, a new request for that path triggers no fetch, and the
requester receives a fresh clone of the original template, not the
template itself. -/
theorem c10_cache_survives_across_calls (s : MeshState) (scene₂ : Nat)
    (qs : List String) (path : String) (t : Nat)
    (hwf : MeshWF s) (hhit : s.cache.lookup path = some t) :
    (processPaths s scene₂ qs).cache.lookup path = some t ∧
    (requestMesh (processPaths s scene₂ qs) scene₂ path).1.fetchLog =
      (processPaths s scene₂ qs).fetchLog ∧
    (requestMesh (processPaths s scene₂ qs) scene₂ path).2.clonedFrom = t ∧
    (requestMesh (processPaths s scene₂ qs) scene₂ path).2.id ≠ t := by
  have hlook := processPaths_preserves_lookup scene₂ path t qs s hhit
  have hreq := requestMesh_hit (processPaths s scene₂ qs) scene₂ path t hlook
  have ht_lt : t < s.nextId := hwf (path, t) (lookup_mem hhit)
  have hmono := processPaths_nextId_mono scene₂ qs s
  refine ⟨hlook, ?_, ?_, ?_⟩
  · rw [hreq]
  · rw [hreq]
  · rw [hreq]
    simp only []
    omega

/-- C10 witness: a first call caches path "a" (template 0); a second
call touching "b" then re-requesting "a" fetches nothing new for "a"
and clones template 0. -/
theorem c10_cache_survives_across_calls_witness :
    (processPaths ⟨[("a", 0)], 2, [("a", 1)]⟩ 7 ["b"]).cache.lookup "a" = some 0 ∧
    (requestMesh (processPaths ⟨[("a", 0)], 2, [("a", 1)]⟩ 7 ["b"]) 7 "a").1.fetchLog =
      (processPaths ⟨[("a", 0)], 2, [("a", 1)]⟩ 7 ["b"]).fetchLog ∧
    (requestMesh (processPaths ⟨[("a", 0)], 2, [("a", 1)]⟩ 7 ["b"]) 7 "a").2.clonedFrom
      = 0 ∧
    (requestMesh (processPaths ⟨[("a", 0)], 2, [("a", 1)]⟩ 7 ["b"]) 7 "a").2.id ≠ 0 :=
  c10_cache_survives_across_calls ⟨[("a", 0)], 2, [("a", 1)]⟩ 7 ["b"] "a" 0
    (by intro pr hpr; rcases List.mem_singleton.mp hpr with rfl; decide) rfl

/-! ## Asset path resolution (BabylonURDFLoader.ts)

JS strings are embedded as List Char so that the character-level
operations of resolvePath (startsWith, substring, split, join, slice,
the slash-collapsing regex replace) stay structural. -/

structure LoaderOptions where
  packages : List (List Char × List Char)
  workingPath : List Char

/-- JS String.prototype.startsWith, recursing on the prefix first so
that an exhausted prefix reduces to true even for an abstract
remainder. -/
def jsStartsWith (px : List Char) (s : List Char) : Bool :=
  match px with
  | [] => true
  | p :: ps =>
    match s with
    | [] => false
    | c :: cs => p == c && jsStartsWith ps cs

/-- The regex replace of runs of slashes by a single slash
(replace(/\/+/g, "/")). -/
def collapseSlashes : List Char → List Char
  | [] => []
  | [c] => [c]
  | c :: d :: t =>
    if c = '/' ∧ d = '/' then collapseSlashes (d :: t)
    else c :: collapseSlashes (d :: t)

/-- resolvePath from BabylonURDFLoader.ts.  Rule order as in the
source: a package:// reference is substituted through the package map
when a mapping exists (and otherwise falls through); a ../ reference is
resolved against the parent of the working path with exactly one
marker stripped; http-or-absolute references pass unchanged; anything
else is resolved relative to the working path.  The two relative
branches collapse repeated slashes. -/
def resolvePath (opts : LoaderOptions) (path : List Char) : List Char :=
  let pkgResult : Option (List Char) :=
    if jsStartsWith "package://".toList path then
      match jsSplit '/' (path.drop 10) with
      | [] => none
      | pkg :: rest =>
        match opts.packages.lookup pkg with
        | some packagePath =>
          some (packagePath ++ '/' :: List.intercalate ['/'] rest)
        | none => none
    else none
  match pkgResult with
  | some r => r
  | none =>
    if jsStartsWith "../".toList path then
      let basePath := if ['/'].isSuffixOf opts.workingPath
        then opts.workingPath.dropLast else opts.workingPath
      let parentPath := List.intercalate ['/'] ((jsSplit '/' basePath).dropLast)
      collapseSlashes (parentPath ++ '/' :: path.drop 3)
    else if jsStartsWith "http".toList path || jsStartsWith ['/'] path then path
    else
      let basePath := if ['/'].isSuffixOf opts.workingPath
        then opts.workingPath else opts.workingPath ++ ['/']
      collapseSlashes (basePath ++ path)

/-- The final relative-resolution branch of resolvePath, extracted:
the reference appended to the working path (with a slash ensured in
between) and slash runs collapsed. -/
def relativeRule (opts : LoaderOptions) (path : List Char) : List Char :=
  let basePath := if ['/'].isSuffixOf opts.workingPath
    then opts.workingPath else opts.workingPath ++ ['/']
  collapseSlashes (basePath ++ path)

/-- C6: the package round trip, the parent-directory round trip of the
specification, and the general single-marker rule: for any remainder,
a ../ reference resolves to the parent directory of the base path with
exactly the one leading marker stripped (any further markers are kept
verbatim in the remainder). -/
theorem c6_resolvePath_roundtrips :
    resolvePath ⟨[("pkgA".toList, "/assets/pkgA".toList)], "/assets/pkgA/urdf/".toList⟩
        "package://pkgA/meshes/foo.stl".toList =
      "/assets/pkgA/meshes/foo.stl".toList ∧
    resolvePath ⟨[], "/assets/pkgA/urdf/".toList⟩ "../meshes/foo.stl".toList =
      "/assets/pkgA/meshes/foo.stl".toList ∧
    ∀ rest : List Char,
      resolvePath ⟨[], "/assets/pkgA/urdf/".toList⟩ ('.' :: '.' :: '/' :: rest) =
        collapseSlashes ("/assets/pkgA/".toList ++ rest) :=
  ⟨by decide, by decide, fun rest => rfl⟩

/-- Modelled from the spec: resolve_path of section 4.3, stated only to
compare rule 1 with the code.  Rule 1 makes an unmapped package
reference an unresolved-package error (none); rules 2 to 4 resolve as
described there. -/
def resolve_path_spec (opts : LoaderOptions) (path : List Char) :
    Option (List Char) :=
  if jsStartsWith "package://".toList path then
    match jsSplit '/' (path.drop 10) with
    | [] => none
    | pkg :: rest =>
      match opts.packages.lookup pkg with
      | some packagePath =>
        some (packagePath ++ '/' :: List.intercalate ['/'] rest)
      | none => none
  else if jsStartsWith "http".toList path || jsStartsWith ['/'] path then some path
  else if jsStartsWith "../".toList path then
    let basePath := if ['/'].isSuffixOf opts.workingPath
      then opts.workingPath.dropLast else opts.workingPath
    let parentPath := List.intercalate ['/'] ((jsSplit '/' basePath).dropLast)
    some (collapseSlashes (parentPath ++ '/' :: path.drop 3))
  else some (relativeRule opts path)

/-- C7 as stated: a package-style reference whose package identifier
has no mapping is an unresolved-package error and in particular is
never resolved by any other rule — so the code's result could never
coincide with the relative rule's output for such a reference. -/
def unmappedPackageErrors : Prop :=
  ∀ (opts : LoaderOptions) (path : List Char),
    jsStartsWith "package://".toList path = true →
    (match jsSplit '/' (path.drop 10) with
     | [] => True
     | pkg :: _ => opts.packages.lookup pkg = none) →
    resolvePath opts path ≠ relativeRule opts path

/-- C7 counterexample: with an empty package map and working path /w,
the reference package://pkgX/m.stl is not an error — the code falls
through and resolves it with the relative rule, giving
/w/package:/pkgX/m.stl (the slash run of package:// is collapsed),
while the spec-modelled resolver reports the unresolved package. -/
theorem c7_counterexample_unmapped_package_falls_through :
    ¬ unmappedPackageErrors ∧
    resolvePath ⟨[], "/w".toList⟩ "package://pkgX/m.stl".toList =
      "/w/package:/pkgX/m.stl".toList ∧
    resolve_path_spec ⟨[], "/w".toList⟩ "package://pkgX/m.stl".toList = none := by
  refine ⟨?_, by decide, by decide⟩
  intro h
  exact (h ⟨[], "/w".toList⟩ "package://pkgX/m.stl".toList (by decide) rfl)
    (by decide)

/-- C7 (amended): an unmapped package reference is not an error —
resolvePath falls through the remaining rules and resolves the raw
reference relative to the working path (slash runs collapsed, turning
package:// into package:/ in the output). -/
theorem c7_amended_unmapped_package_resolved_relatively
    (opts : LoaderOptions) (pkg rest : List Char)
    (hsl : '/' ∉ pkg)
    (hmiss : opts.packages.lookup pkg = none) :
    resolvePath opts ("package://".toList ++ (pkg ++ '/' :: rest)) =
      relativeRule opts ("package://".toList ++ (pkg ++ '/' :: rest)) := by
  have hsplit : jsSplit '/' (("package://".toList ++ (pkg ++ '/' :: rest)).drop 10) =
      pkg :: jsSplit '/' rest := by
    show jsSplit '/' (pkg ++ '/' :: rest) = pkg :: jsSplit '/' rest
    exact jsSplit_sep_append '/' pkg rest hsl
  show (match
      (match jsSplit '/' (("package://".toList ++ (pkg ++ '/' :: rest)).drop 10) with
       | [] => none
       | pkg :: rest =>
         match opts.packages.lookup pkg with
         | some packagePath =>
           some (packagePath ++ '/' :: List.intercalate ['/'] rest)
         | none => none : Option (List Char)) with
    | some r => r
    | none => relativeRule opts ("package://".toList ++ (pkg ++ '/' :: rest))) =
    relativeRule opts ("package://".toList ++ (pkg ++ '/' :: rest))
  rw [hsplit]
  show (match
      (match opts.packages.lookup pkg with
       | some packagePath =>
         some (packagePath ++ '/' :: List.intercalate ['/'] (jsSplit '/' rest))
       | none => none : Option (List Char)) with
    | some r => r
    | none => relativeRule opts ("package://".toList ++ (pkg ++ '/' :: rest))) =
    relativeRule opts ("package://".toList ++ (pkg ++ '/' :: rest))
  rw [hmiss]

/-- C7 witness: the amended theorem at the counterexample input. -/
theorem c7_amended_unmapped_package_resolved_relatively_witness :
    resolvePath ⟨[], "/w".toList⟩
        ("package://".toList ++ ("pkgX".toList ++ '/' :: "m.stl".toList)) =
      relativeRule ⟨[], "/w".toList⟩
        ("package://".toList ++ ("pkgX".toList ++ '/' :: "m.stl".toList)) :=
  c7_amended_unmapped_package_resolved_relatively ⟨[], "/w".toList⟩
    "pkgX".toList "m.stl".toList (by decide) rfl

end URDF
